import Mathlib

/-!
Verification development for the statistical core of the `today-me` repository:
the careless-response detector (`careless_response_detector.py`) and the
response-style corrector (`response_style_corrector.py`).

Modelling conventions:
* Python floats are modelled as exact rationals (`ℚ`); the only genuinely
  irrational operation in the source, the square root used by the Pearson
  correlation and by `np.std`, is modelled over `ℝ` with `Real.sqrt`.
* Python's `round` builtin (round-half-to-even) is modelled exactly by
  `rheQ`/`rheR` and `pyRoundQ`/`pyRoundR`.
* Lists of Likert responses are `List ℤ`, response times are `List ℚ`.
* The source raises no exception on the inputs the claims are about, so the
  embedded operations are total functions.
-/

namespace TodayMe

/-- Mean of a list of rationals, `np.mean`; division by zero (empty list,
outside the domain the source is called on) yields `0`. -/
def listMeanQ (l : List ℚ) : ℚ := l.sum / l.length

/-- Mean of a list of integer responses, as a rational (`np.mean`). -/
def meanZ (l : List ℤ) : ℚ := ((l.sum : ℤ) : ℚ) / l.length

/-- Population variance of a list of integer responses (`np.var`). -/
def listVarZ (l : List ℤ) : ℚ :=
  ((l.map (fun (x : ℤ) => ((x : ℚ) - meanZ l) ^ 2)).sum) / l.length

/-- Population covariance of two index-aligned lists (the normalisation by
`n` cancels in the Pearson correlation, so population form is equivalent to
`np.cov`'s sample form there). -/
def listCovZ (xs ys : List ℤ) : ℚ :=
  (((xs.zip ys).map
      (fun (p : ℤ × ℤ) => ((p.1 : ℚ) - meanZ xs) * ((p.2 : ℚ) - meanZ ys))).sum) / xs.length

/-- Minimum of a list of rationals, `np.min`; `0` on the empty list. -/
def listMinQ : List ℚ → ℚ
  | [] => 0
  | x :: xs => xs.foldl min x

/-- Maximum of a list of rationals, `np.max`; `0` on the empty list. -/
def listMaxQ : List ℚ → ℚ
  | [] => 0
  | x :: xs => xs.foldl max x

/-- Python's `round` to the nearest integer with ties to even
(round-half-even), on rationals. -/
def rheQ (x : ℚ) : ℤ :=
  if x - ⌊x⌋ < 1 / 2 then ⌊x⌋
  else if 1 / 2 < x - ⌊x⌋ then ⌊x⌋ + 1
  else if 2 ∣ ⌊x⌋ then ⌊x⌋ else ⌊x⌋ + 1

/-- Python's `round` to the nearest integer with ties to even, on reals. -/
noncomputable def rheR (x : ℝ) : ℤ :=
  if x - ⌊x⌋ < 1 / 2 then ⌊x⌋
  else if 1 / 2 < x - ⌊x⌋ then ⌊x⌋ + 1
  else if 2 ∣ ⌊x⌋ then ⌊x⌋ else ⌊x⌋ + 1

/-- Python's `round(x, n)` (n decimal places, ties to even), on rationals. -/
def pyRoundQ (n : ℕ) (x : ℚ) : ℚ := (rheQ (x * 10 ^ n) : ℚ) / 10 ^ n

/-- Python's `round(x, n)` (n decimal places, ties to even), on reals. -/
noncomputable def pyRoundR (n : ℕ) (x : ℝ) : ℝ := (rheR (x * 10 ^ n) : ℝ) / 10 ^ n

/-! ### Response style corrector (`response_style_corrector.py`) -/

/-- Construction-time thresholds of `ResponseStyleCorrector.__init__`. -/
structure CorrectorConfig where
  extreme_threshold : ℚ
  midpoint_threshold : ℚ
  acquiescence_threshold : ℚ

/-- The default corrector configuration (all thresholds `0.7`). -/
def defaultCorrector : CorrectorConfig := ⟨7 / 10, 7 / 10, 7 / 10⟩

/-- Result record of `ResponseStyleCorrector.correct`.  The `style_scores`
dict is flattened into three fields (each rounded to 3 decimals as in the
source); the timestamp is omitted as pure wall-clock output. -/
structure CorrectionResult where
  corrected_responses : List ℤ
  corrections_applied : List String
  original_responses : List ℤ
  ers_score : ℚ
  mrs_score : ℚ
  aq_score : Option ℚ

/-- `_calc_extreme_responding`: fraction of responses equal to 1 or 4. -/
def calcExtremeResponding (responses : List ℤ) : ℚ :=
  ((responses.count 1 + responses.count 4 : ℕ) : ℚ) / responses.length

/-- `_calc_midpoint_responding`: fraction of responses equal to 2 or 3. -/
def calcMidpointResponding (responses : List ℤ) : ℚ :=
  ((responses.count 2 + responses.count 3 : ℕ) : ℚ) / responses.length

/-- Whether adjacent positions `i`, `i+1` have opposite polarity, i.e.
exactly one of them is listed in `reverse_items`. -/
def polarityPair (reverse_items : List ℕ) (i : ℕ) : Bool :=
  decide (i ∈ reverse_items) != decide (i + 1 ∈ reverse_items)

/-- `_calc_acquiescence`: over adjacent pairs of opposite polarity, the
fraction whose response sum differs from 5 by more than 1; `0.0` when there
are no such pairs. -/
def calcAcquiescence (responses : List ℤ) (reverse_items : List ℕ) : ℚ :=
  let idxs := (List.range (responses.length - 1)).filter (polarityPair reverse_items)
  let pairs := idxs.length
  let mismatches :=
    (idxs.filter (fun i =>
      decide (1 < |responses.getD i 0 + responses.getD (i + 1) 0 - 5|))).length
  if pairs = 0 then 0 else (mismatches : ℚ) / pairs

/-- `_correct_extreme`: if the population standard deviation is below `0.1`
return the input unchanged, otherwise z-score each response, remap with
centre `2.5` and scale `0.75`, clamp to `[1, 4]` and round. -/
noncomputable def correctExtreme (responses : List ℤ) : List ℤ :=
  let v := listVarZ responses
  if Real.sqrt (v : ℝ) < 1 / 10 then responses
  else
    responses.map (fun (r : ℤ) =>
      rheR (max 1 (min 4
        ((5 / 2 : ℝ) + ((r : ℝ) - ((meanZ responses : ℚ) : ℝ)) / Real.sqrt (v : ℝ) * (3 / 4)))))

/-- `_correct_midpoint`: nudge each response equal to 2 or 3 away from the
midpoint depending on its position relative to the mean, clamp to `[1, 4]`
and round; other responses pass through unchanged. -/
def correctMidpoint (responses : List ℤ) : List ℤ :=
  let m := meanZ responses
  responses.map (fun (r : ℤ) =>
    if r = 2 ∨ r = 3 then
      let adj : ℚ :=
        if m < (r : ℚ) then 1 / 2
        else if (r : ℚ) < m then -(1 / 2)
        else if r = 3 then 3 / 10 else -(3 / 10)
      rheQ (max 1 (min 4 ((r : ℚ) + adj)))
    else r)

/-- One iteration of the `_correct_acquiescence` loop: set position `idx`
of the working copy to `5 - responses[idx]` when `idx` is in bounds,
otherwise leave the working copy unchanged (the source's
`if idx < len(corrected)` guard). -/
def acqStep (responses : List ℤ) (acc : List ℤ) (idx : ℕ) : List ℤ :=
  if idx < acc.length then acc.set idx (5 - responses.getD idx 0) else acc

/-- `_correct_acquiescence`: for each listed reverse index that is in bounds
set the response at that index to `5 - x` (`x` the value in the list given
as `responses`); out-of-bounds indices are silently skipped. -/
def correctAcquiescence (responses : List ℤ) (reverse_items : List ℕ) : List ℤ :=
  reverse_items.foldl (acqStep responses) responses

/-- `ResponseStyleCorrector.correct`: style scores are computed on the
original vector, corrections are applied in sequence (extreme → midpoint →
acquiescence) to the working vector; `aq_score` is `none` when
`reverse_items` is `None` or empty (Python truthiness). -/
noncomputable def correct (cfg : CorrectorConfig) (responses : List ℤ)
    (reverse_items : Option (List ℕ)) : CorrectionResult :=
  let ers := calcExtremeResponding responses
  let mrs := calcMidpointResponding responses
  let c1 := if cfg.extreme_threshold < ers then correctExtreme responses else responses
  let l1 : List String :=
    if cfg.extreme_threshold < ers then ["extreme_responding"] else []
  let c2 := if cfg.midpoint_threshold < mrs then correctMidpoint c1 else c1
  let l2 := l1 ++ (if cfg.midpoint_threshold < mrs then ["midpoint_responding"] else [])
  match reverse_items with
  | some ri =>
      if ri = [] then
        ⟨c2, l2, responses, pyRoundQ 3 ers, pyRoundQ 3 mrs, none⟩
      else
        let aq := calcAcquiescence responses ri
        if cfg.acquiescence_threshold < aq then
          ⟨correctAcquiescence c2 ri, l2 ++ ["acquiescence_bias"], responses,
            pyRoundQ 3 ers, pyRoundQ 3 mrs, some (pyRoundQ 3 aq)⟩
        else
          ⟨c2, l2, responses, pyRoundQ 3 ers, pyRoundQ 3 mrs, some (pyRoundQ 3 aq)⟩
  | none => ⟨c2, l2, responses, pyRoundQ 3 ers, pyRoundQ 3 mrs, none⟩

/-! ### Careless response detector (`careless_response_detector.py`) -/

/-- Construction-time thresholds of `CarelessResponseDetector.__init__`. -/
structure DetectorConfig where
  min_time_per_item : ℚ
  longstring_threshold : ℕ
  correlation_threshold : ℚ
  mahalanobis_p_threshold : ℚ
  variance_threshold : ℚ

/-- The default detector configuration
(`2.0`, `10`, `0.3`, `0.001`, `0.3`). -/
def defaultDetector : DetectorConfig := ⟨2, 10, 3 / 10, 1 / 1000, 3 / 10⟩

/-- Diagnostics of `_check_response_time`.  `avg_time`, `min_time`,
`max_time` and `fast_ratio` are the rounded values stored in the details
dict; `is_flagged` is computed from the unrounded mean, as in the source. -/
structure TimeDetails where
  avg_time : ℚ
  min_time : ℚ
  max_time : ℚ
  max_consecutive_fast : ℕ
  fast_count : ℕ
  fast_ratio : ℚ
  is_flagged : Bool

/-- The source's loop computing the longest run of consecutive response
times under 1 second: `cur` is the current run, `mx` the maximum so far. -/
def fastAux : ℕ → ℕ → List ℚ → ℕ
  | _, mx, [] => mx
  | cur, mx, t :: rest =>
      if t < 1 then fastAux (cur + 1) (max mx (cur + 1)) rest
      else fastAux 0 mx rest

/-- Longest run of consecutive times under 1 second. -/
def maxConsecutiveFast (times : List ℚ) : ℕ := fastAux 0 0 times

/-- `_check_response_time`: flags when the mean time is below
`min_time_per_item` or at least 3 consecutive answers took under 1 second. -/
def checkResponseTime (cfg : DetectorConfig) (times : List ℚ) : TimeDetails :=
  let avg := listMeanQ times
  let mcf := maxConsecutiveFast times
  let fc := times.countP (fun t => decide (t < 1))
  ⟨pyRoundQ 2 avg, pyRoundQ 2 (listMinQ times), pyRoundQ 2 (listMaxQ times),
    mcf, fc, pyRoundQ 3 ((fc : ℚ) / times.length),
    decide (avg < cfg.min_time_per_item ∨ 3 ≤ mcf)⟩

/-- One recorded run of identical responses of length at least 5
(value, length, start index). -/
structure Streak where
  value : ℤ
  length : ℕ
  start_index : ℕ

/-- Diagnostics of `_check_longstring`. -/
structure LongstringDetails where
  max_streak : ℕ
  long_streaks : List Streak
  is_flagged : Bool

/-- The source's longstring scan: `prev` is the previous response, `i` the
position of the next element, `cur` the current run length, `mx` the
maximum closed run, `acc` the recorded runs of length at least 5.  The final
(trailing) run is closed and checked when the list ends. -/
def lsAux : ℤ → ℕ → ℕ → ℕ → List Streak → List ℤ → ℕ × List Streak
  | prev, i, cur, mx, acc, [] =>
      (max mx cur, if 5 ≤ cur then acc ++ [⟨prev, cur, i - cur⟩] else acc)
  | prev, i, cur, mx, acc, x :: rest =>
      if x = prev then lsAux x (i + 1) (cur + 1) mx acc rest
      else lsAux x (i + 1) 1 (max mx cur)
        (if 5 ≤ cur then acc ++ [⟨prev, cur, i - cur⟩] else acc) rest

/-- `_check_longstring`: maximum run of identical consecutive responses;
flags when it reaches `longstring_threshold`.  On the empty list the source
reports `max_streak = 1` (the loop body never runs). -/
def checkLongstring (cfg : DetectorConfig) (responses : List ℤ) : LongstringDetails :=
  match responses with
  | [] => ⟨1, [], decide (cfg.longstring_threshold ≤ 1)⟩
  | x :: rest =>
      let p := lsAux x 1 1 1 [] rest
      ⟨p.1, p.2, decide (cfg.longstring_threshold ≤ p.1)⟩

/-- Diagnostics of `_check_consistency`.  `correlation` is the rounded value
stored in the details dict, absent (`none`) when there are fewer than 20
responses; `is_flagged` is computed from the unrounded correlation. -/
structure ConsistencyDetails where
  correlation : Option ℝ
  even_items_count : ℕ
  odd_items_count : ℕ
  even_mean : ℚ
  odd_mean : ℚ
  is_flagged : Bool

/-- `responses[i] for i in range(0, len, 2)`: the even-indexed subsequence. -/
def evenItems (r : List ℤ) : List ℤ :=
  ((List.range r.length).filter (fun i => i % 2 = 0)).map (fun i => r.getD i 0)

/-- `responses[i] for i in range(1, len, 2)`: the odd-indexed subsequence. -/
def oddItems (r : List ℤ) : List ℤ :=
  ((List.range r.length).filter (fun i => i % 2 = 1)).map (fun i => r.getD i 0)

/-- Both subsequences truncated to their common length. -/
def truncLen (r : List ℤ) : ℕ := min (evenItems r).length (oddItems r).length

/-- Even-indexed subsequence truncated to the common length. -/
def evenTrunc (r : List ℤ) : List ℤ := (evenItems r).take (truncLen r)

/-- Odd-indexed subsequence truncated to the common length. -/
def oddTrunc (r : List ℤ) : List ℤ := (oddItems r).take (truncLen r)

/-- Pearson correlation of two index-aligned lists (`np.corrcoef`), with the
nan result produced by a zero variance mapped to `0.0` as in the source. -/
noncomputable def pearsonOrZero (xs ys : List ℤ) : ℝ :=
  let vx := listVarZ xs
  let vy := listVarZ ys
  if vx = 0 ∨ vy = 0 then 0
  else (listCovZ xs ys : ℝ) / Real.sqrt ((vx : ℝ) * (vy : ℝ))

/-- `_check_consistency`: requires at least 20 responses (else not flagged,
with the correlation diagnostic absent); flags when the even/odd Pearson
correlation falls below `correlation_threshold`. -/
noncomputable def checkConsistency (cfg : DetectorConfig) (r : List ℤ) : ConsistencyDetails :=
  if r.length < 20 then ⟨none, 0, 0, 0, 0, false⟩
  else
    let e := evenTrunc r
    let o := oddTrunc r
    let c := pearsonOrZero e o
    ⟨some (pyRoundR 3 c), e.length, o.length,
      pyRoundQ 2 (meanZ e), pyRoundQ 2 (meanZ o),
      decide (c < (cfg.correlation_threshold : ℝ))⟩

/-- Square-root-free decision of the consistency flag: decides
`pearsonOrZero < correlation_threshold` using only rational arithmetic
(valid for a positive threshold). -/
def consistencyFiredDecide (cfg : DetectorConfig) (r : List ℤ) : Bool :=
  if r.length < 20 then false
  else
    let e := evenTrunc r
    let o := oddTrunc r
    let vx := listVarZ e
    let vy := listVarZ o
    let cv := listCovZ e o
    if vx = 0 ∨ vy = 0 then decide (0 < cfg.correlation_threshold)
    else decide (cv < 0 ∨ (0 ≤ cv ∧ cv ^ 2 < cfg.correlation_threshold ^ 2 * (vx * vy)))

/-- Diagnostics of `_check_mahalanobis`, modelled as an oracle: the check
only runs when the caller supplies a reference data matrix, and its
numerics (covariance inversion, chi-square tail) are outside the embedded
fragment; its internal error path yields `p_value = none`,
`is_flagged = false`. -/
structure MahaDetails where
  p_value : Option ℝ
  is_flagged : Bool

/-- Diagnostics of `_check_low_variance`: `variance` is the rounded stored
value, the flag is computed from the unrounded population variance. -/
structure VarianceDetails where
  variance : ℚ
  is_flagged : Bool

/-- `_check_low_variance`: flags when the population variance of the
responses is below `variance_threshold`. -/
def checkLowVariance (cfg : DetectorConfig) (r : List ℤ) : VarianceDetails :=
  let v := listVarZ r
  ⟨pyRoundQ 3 v, decide (v < cfg.variance_threshold)⟩

/-- The details dict assembled by `analyze` and read back by
`_calculate_quality_score`. -/
structure QualityDetails where
  response_time : TimeDetails
  longstring : LongstringDetails
  consistency : ConsistencyDetails
  mahalanobis : Option MahaDetails
  variance : VarianceDetails

/-- `_calculate_quality_score`, translated clause by clause: the score
starts at `1.0` and each penalty is subtracted in sequence, then the result
is clamped to `[0, 1]`. -/
noncomputable def calculateQualityScore (cfg : DetectorConfig) (d : QualityDetails) : ℝ :=
  let s0 : ℝ := 1
  let s1 :=
    if d.response_time.avg_time < cfg.min_time_per_item then
      s0 - 3 / 10 * ((cfg.min_time_per_item : ℝ) - (d.response_time.avg_time : ℚ)) /
        (cfg.min_time_per_item : ℝ)
    else s0
  let s2 :=
    if 3 / 10 < d.response_time.fast_ratio then
      s1 - 1 / 10 * ((d.response_time.fast_ratio : ℚ) : ℝ)
    else s1
  let s3 :=
    if cfg.longstring_threshold ≤ d.longstring.max_streak then
      s2 - 1 / 4 * min ((d.longstring.max_streak : ℝ) / 20) 1
    else s2
  let s4 :=
    match d.consistency.correlation with
    | some c =>
        if c < (cfg.correlation_threshold : ℝ) then
          s3 - 1 / 4 * ((cfg.correlation_threshold : ℝ) - c) / (cfg.correlation_threshold : ℝ)
        else s3
    | none => s3
  let s5 :=
    match d.mahalanobis with
    | some m =>
        match m.p_value with
        | some p => if p < 1 / 100 then s4 - 1 / 5 else s4
        | none => s4
    | none => s4
  let s6 := if d.variance.is_flagged then s5 - 1 / 5 else s5
  max 0 (min 1 s6)

/-- The penalty arithmetic exactly as the specification words it: start at
`1.0`, subtract each applicable penalty, clamp the final score to `[0,1]`. -/
noncomputable def specQualityScore (cfg : DetectorConfig) (d : QualityDetails) : ℝ :=
  max 0 (min 1 (1
    - (if d.response_time.avg_time < cfg.min_time_per_item then
        3 / 10 * ((cfg.min_time_per_item : ℝ) - (d.response_time.avg_time : ℚ)) /
          (cfg.min_time_per_item : ℝ)
      else 0)
    - (if 3 / 10 < d.response_time.fast_ratio then
        1 / 10 * ((d.response_time.fast_ratio : ℚ) : ℝ)
      else 0)
    - (if cfg.longstring_threshold ≤ d.longstring.max_streak then
        1 / 4 * min ((d.longstring.max_streak : ℝ) / 20) 1
      else 0)
    - (match d.consistency.correlation with
      | some c =>
          if c < (cfg.correlation_threshold : ℝ) then
            1 / 4 * ((cfg.correlation_threshold : ℝ) - c) / (cfg.correlation_threshold : ℝ)
          else 0
      | none => 0)
    - (match d.mahalanobis with
      | some m =>
          match m.p_value with
          | some p => if p < 1 / 100 then (1 / 5 : ℝ) else 0
          | none => 0
      | none => 0)
    - (if d.variance.is_flagged then (1 / 5 : ℝ) else 0)))

/-- The four recommendation bands of `_get_recommendation`. -/
inductive Recommendation where
  | excellent
  | acceptable
  | warning
  | reject
deriving DecidableEq

/-- `_get_recommendation`: fixed cutoffs on the quality score. -/
noncomputable def getRecommendation (q : ℝ) : Recommendation :=
  if 4 / 5 ≤ q then .excellent
  else if 3 / 5 ≤ q then .acceptable
  else if 2 / 5 ≤ q then .warning
  else .reject

/-- Order of the recommendation bands, from worst to best. -/
def recRank : Recommendation → ℕ
  | .reject => 0
  | .warning => 1
  | .acceptable => 2
  | .excellent => 3

/-- Result record of `CarelessResponseDetector.analyze` (timestamp omitted
as pure wall-clock output). -/
structure QualityCheckResult where
  is_careless : Bool
  flags : List String
  quality_score : ℝ
  recommendation : Recommendation
  details : QualityDetails

/-- `CarelessResponseDetector.analyze`: runs the checks, collects the flag
names in order, derives the quality score, the recommendation and
`is_careless = (len(flags) >= 2)`.  The Mahalanobis sub-check runs only
when reference data is supplied; it is passed here as the optional oracle
`maha` (see `MahaDetails`). -/
noncomputable def analyze (cfg : DetectorConfig) (responses : List ℤ)
    (times : List ℚ) (maha : Option MahaDetails) : QualityCheckResult :=
  let d : QualityDetails :=
    ⟨checkResponseTime cfg times, checkLongstring cfg responses,
      checkConsistency cfg responses, maha, checkLowVariance cfg responses⟩
  let flags : List String :=
    (if d.response_time.is_flagged then ["speeding"] else [])
    ++ (if d.longstring.is_flagged then ["longstring"] else [])
    ++ (if d.consistency.is_flagged then ["inconsistent"] else [])
    ++ (match maha with
        | some m => if m.is_flagged then ["statistical_outlier"] else []
        | none => [])
    ++ (if d.variance.is_flagged then ["low_variance"] else [])
  let q := calculateQualityScore cfg d
  ⟨decide (2 ≤ flags.length), flags, q, getRecommendation q, d⟩

/-! ### Specification-side auxiliary definitions -/

/-- `ContigRun l k v`: the vector `l` contains a run of `k` identical
consecutive values `v` (positional formulation). -/
def ContigRun (l : List ℤ) (k : ℕ) (v : ℤ) : Prop :=
  ∃ i, i + k ≤ l.length ∧ ∀ j, j < k → l.getD (i + j) 0 = v

/-- Simplified form of the longstring scan used in the proofs: the maximum
run length of `replicate cur prev ++ rest`, given the current run `cur`. -/
def msFrom : ℤ → ℕ → List ℤ → ℕ
  | _, cur, [] => cur
  | prev, cur, x :: rest =>
      if x = prev then msFrom x (cur + 1) rest
      else max cur (msFrom x 1 rest)

/-- A 50-item vector whose longest run has length exactly 9
(`longstring_threshold - 1` with the default configuration). -/
def runNineVec : List ℤ :=
  List.replicate 9 1 ++ List.replicate 9 2 ++ List.replicate 9 1 ++
    List.replicate 9 2 ++ List.replicate 9 1 ++ List.replicate 5 2

/-! ### Helper lemmas: Python rounding -/

/-- `rheR` moves its argument by at most one half (upper bound). -/
theorem rheR_le_half (x : ℝ) : (rheR x : ℝ) ≤ x + 1 / 2 := by
  have hf := Int.floor_le x
  unfold rheR
  split_ifs with h1 h2 h3
  · linarith
  · have h1' : (1 : ℝ) / 2 ≤ x - ⌊x⌋ := not_lt.mp h1
    push_cast
    linarith
  · linarith
  · have h1' : (1 : ℝ) / 2 ≤ x - ⌊x⌋ := not_lt.mp h1
    push_cast
    linarith

/-- `rheR` moves its argument by at most one half (lower bound). -/
theorem rheR_ge_half (x : ℝ) : x - 1 / 2 ≤ (rheR x : ℝ) := by
  have hc := Int.lt_floor_add_one x
  unfold rheR
  split_ifs with h1 h2 h3
  · linarith
  · push_cast
    linarith
  · have h2' : x - ⌊x⌋ ≤ 1 / 2 := not_lt.mp h2
    linarith
  · push_cast
    linarith

/-- Rounding a real clamped into `[1, 4]` stays in `[1, 4]`. -/
theorem rheR_range {x : ℝ} (h1 : 1 ≤ x) (h4 : x ≤ 4) : 1 ≤ rheR x ∧ rheR x ≤ 4 := by
  have hle := rheR_le_half x
  have hge := rheR_ge_half x
  constructor
  · have h : (0 : ℝ) < (rheR x : ℝ) := by linarith
    have h' : (0 : ℤ) < rheR x := by exact_mod_cast h
    omega
  · have h : ((rheR x : ℤ) : ℝ) < 5 := by linarith
    have h' : (rheR x : ℤ) < 5 := by exact_mod_cast h
    omega

/-- `rheQ` moves its argument by at most one half (upper bound). -/
theorem rheQ_le_half (x : ℚ) : (rheQ x : ℚ) ≤ x + 1 / 2 := by
  have hf := Int.floor_le x
  unfold rheQ
  split_ifs with h1 h2 h3
  · linarith
  · have h1' : (1 : ℚ) / 2 ≤ x - ⌊x⌋ := not_lt.mp h1
    push_cast
    linarith
  · linarith
  · have h1' : (1 : ℚ) / 2 ≤ x - ⌊x⌋ := not_lt.mp h1
    push_cast
    linarith

/-- `rheQ` moves its argument by at most one half (lower bound). -/
theorem rheQ_ge_half (x : ℚ) : x - 1 / 2 ≤ (rheQ x : ℚ) := by
  have hc := Int.lt_floor_add_one x
  unfold rheQ
  split_ifs with h1 h2 h3
  · linarith
  · push_cast
    linarith
  · have h2' : x - ⌊x⌋ ≤ 1 / 2 := not_lt.mp h2
    linarith
  · push_cast
    linarith

/-- Rounding a rational clamped into `[1, 4]` stays in `[1, 4]`. -/
theorem rheQ_range {x : ℚ} (h1 : 1 ≤ x) (h4 : x ≤ 4) : 1 ≤ rheQ x ∧ rheQ x ≤ 4 := by
  have hle := rheQ_le_half x
  have hge := rheQ_ge_half x
  constructor
  · have h : (0 : ℚ) < (rheQ x : ℚ) := by linarith
    have h' : (0 : ℤ) < rheQ x := by exact_mod_cast h
    omega
  · have h : ((rheQ x : ℤ) : ℚ) < 5 := by linarith
    have h' : (rheQ x : ℤ) < 5 := by exact_mod_cast h
    omega

/-! ### Helper lemmas: acquiescence correction, pointwise -/

/-- `getD` after `set` at the written index. -/
theorem getD_set_self (l : List ℤ) (i : ℕ) (v : ℤ) (h : i < l.length) :
    (l.set i v).getD i 0 = v := by
  rw [List.getD_eq_getElem (l.set i v) 0 (by simpa using h)]
  simp

/-- `getD` after `set` at a different index. -/
theorem getD_set_ne (l : List ℤ) (i j : ℕ) (v : ℤ) (h : i ≠ j) :
    (l.set i v).getD j 0 = l.getD j 0 := by
  by_cases hj : j < l.length
  · rw [List.getD_eq_getElem (l.set i v) 0 (by simpa using hj),
      List.getD_eq_getElem l 0 hj]
    exact List.getElem_set_ne h _
  · rw [List.getD_eq_default (l.set i v) 0 (by simpa using not_lt.mp hj),
      List.getD_eq_default l 0 (not_lt.mp hj)]

/-- The acquiescence fold preserves the length of the working copy. -/
theorem acqFold_length (r : List ℤ) (ri : List ℕ) :
    ∀ acc : List ℤ, (ri.foldl (acqStep r) acc).length = acc.length := by
  induction ri with
  | nil => intro acc; rfl
  | cons idx rest ih =>
      intro acc
      rw [List.foldl_cons, ih]
      unfold acqStep
      split_ifs <;> simp

/-- Pointwise description of the acquiescence fold: a position is rewritten
to `5 - r[i]` exactly when its index is listed (out-of-bounds listed indices
change nothing). -/
theorem acqFold_getD (r : List ℤ) (ri : List ℕ) :
    ∀ acc : List ℤ, acc.length = r.length → ∀ i, i < r.length →
      (ri.foldl (acqStep r) acc).getD i 0 =
        if i ∈ ri then 5 - r.getD i 0 else acc.getD i 0 := by
  induction ri with
  | nil => intro acc _ i _; simp
  | cons idx rest ih =>
      intro acc hacc i hi
      have hstep : (acqStep r acc idx).length = acc.length := by
        unfold acqStep
        split_ifs <;> simp
      rw [List.foldl_cons, ih (acqStep r acc idx) (hstep.trans hacc) i hi]
      have hlt : i < acc.length := by rw [hacc]; exact hi
      by_cases hmem : i ∈ rest
      · rw [if_pos hmem, if_pos (List.mem_cons_of_mem idx hmem)]
      · rw [if_neg hmem]
        by_cases heq : i = idx
        · subst heq
          rw [if_pos (List.mem_cons_self i rest)]
          unfold acqStep
          rw [if_pos hlt]
          exact getD_set_self acc i _ hlt
        · rw [if_neg (by simp [List.mem_cons, heq, hmem])]
          unfold acqStep
          split_ifs with hg
          · exact getD_set_ne acc idx i _ (fun h => heq h.symm)
          · rfl

/-- `_correct_acquiescence` preserves the vector length. -/
theorem correctAcq_length (r : List ℤ) (ri : List ℕ) :
    (correctAcquiescence r ri).length = r.length :=
  acqFold_length r ri r

/-- Pointwise description of `_correct_acquiescence`. -/
theorem correctAcq_getD (r : List ℤ) (ri : List ℕ) (i : ℕ) (hi : i < r.length) :
    (correctAcquiescence r ri).getD i 0 =
      if i ∈ ri then 5 - r.getD i 0 else r.getD i 0 := by
  unfold correctAcquiescence
  exact acqFold_getD r ri r rfl i hi

/-! ### C1: input validation -/

/-- C1 (counterexample): a call to `correct` whose `reverse_items` contains
the out-of-bounds index 100 does not fail: it returns a normal
`CorrectionResult`, applies the acquiescence correction to the in-bounds
indices and silently skips the out-of-bounds one — contradicting the claim
that such a call fails with an `InvalidInputError`. -/
theorem c1_counterexample :
    (correct defaultCorrector [1, 1, 3, 3, 1, 1, 3, 3]
        (some [1, 2, 3, 4, 100])).corrections_applied = ["acquiescence_bias"] ∧
    (correct defaultCorrector [1, 1, 3, 3, 1, 1, 3, 3]
        (some [1, 2, 3, 4, 100])).corrected_responses = [1, 4, 2, 2, 4, 1, 3, 3] := by
  have hers : calcExtremeResponding [1, 1, 3, 3, 1, 1, 3, 3] = 1 / 2 := by
    norm_num [calcExtremeResponding]
  have hmrs : calcMidpointResponding [1, 1, 3, 3, 1, 1, 3, 3] = 1 / 2 := by
    norm_num [calcMidpointResponding]
  have haq : calcAcquiescence [1, 1, 3, 3, 1, 1, 3, 3] [1, 2, 3, 4, 100] = 1 := by
    have h1 : ((List.range (([1, 1, 3, 3, 1, 1, 3, 3] : List ℤ).length - 1)).filter
        (polarityPair [1, 2, 3, 4, 100])) = [0, 4] := by decide
    have h2 : (([0, 4] : List ℕ).filter (fun i =>
        decide (1 < |([1, 1, 3, 3, 1, 1, 3, 3] : List ℤ).getD i 0 +
          ([1, 1, 3, 3, 1, 1, 3, 3] : List ℤ).getD (i + 1) 0 - 5|))) = [0, 4] := by decide
    simp only [calcAcquiescence, h1, h2]
    norm_num
  have hca : correctAcquiescence [1, 1, 3, 3, 1, 1, 3, 3] [1, 2, 3, 4, 100]
      = [1, 4, 2, 2, 4, 1, 3, 3] := by decide
  simp only [correct]
  rw [hers, hmrs, haq]
  norm_num [defaultCorrector, hca]
  simp

/-- C1 (amended): the code performs no input validation and defines no
`InvalidInputError`; `correct` processes any `reverse_items` list without
failing: each listed in-bounds index is reverse-scored and every listed
out-of-bounds index is silently skipped, leaving the vector unchanged
there. -/
theorem c1_no_validation (r : List ℤ) (ri : List ℕ) :
    (correctAcquiescence r ri).length = r.length ∧
    ∀ i, i < r.length →
      (correctAcquiescence r ri).getD i 0 =
        if i ∈ ri then 5 - r.getD i 0 else r.getD i 0 :=
  ⟨correctAcq_length r ri, fun i hi => correctAcq_getD r ri i hi⟩

/-- Witness for `c1_no_validation` at a concrete input with an
out-of-bounds reverse index. -/
theorem c1_no_validation_witness :
    (1 < ([1, 2, 3] : List ℤ).length) ∧
    (correctAcquiescence [1, 2, 3] [0, 5]).getD 1 0 = 2 := by
  refine ⟨by decide, ?_⟩
  rw [(c1_no_validation [1, 2, 3] [0, 5]).2 1 (by decide)]
  decide

/-! ### C5: no in-place mutation -/

/-- C5: `correct` never mutates the caller's vector: `original_responses`
always equals the input element-wise, and when `corrections_applied` is
empty the corrected vector equals the original. -/
theorem c5_no_mutation (cfg : CorrectorConfig) (r : List ℤ) (ri : Option (List ℕ)) :
    (correct cfg r ri).original_responses = r ∧
    ((correct cfg r ri).corrections_applied = [] →
      (correct cfg r ri).corrected_responses = r) := by
  rcases ri with _ | l <;> simp only [correct] <;> split_ifs <;> simp_all

/-- Witness for `c5_no_mutation` at a concrete input firing no
correction. -/
theorem c5_no_mutation_witness :
    (correct defaultCorrector [1, 2, 3, 4] none).corrections_applied = [] ∧
    (correct defaultCorrector [1, 2, 3, 4] none).corrected_responses = [1, 2, 3, 4] := by
  have hers : calcExtremeResponding [1, 2, 3, 4] = 1 / 2 := by
    norm_num [calcExtremeResponding]
  have hmrs : calcMidpointResponding [1, 2, 3, 4] = 1 / 2 := by
    norm_num [calcMidpointResponding]
  have hempty : (correct defaultCorrector [1, 2, 3, 4] none).corrections_applied = [] := by
    simp only [correct]
    rw [hers, hmrs]
    norm_num [defaultCorrector]
  exact ⟨hempty, (c5_no_mutation defaultCorrector [1, 2, 3, 4] none).2 hempty⟩

/-! ### C8: reverse-scoring round trip -/

/-- C8: applying the acquiescence correction twice with the same in-bounds
reverse-item indices returns the original vector at every position, and
`5 - (5 - x) = x` on the Likert range. -/
theorem c8_reverse_scoring_roundtrip (r : List ℤ) (ri : List ℕ)
    (hin : ∀ i ∈ ri, i < r.length) :
    correctAcquiescence (correctAcquiescence r ri) ri = r ∧
    ∀ x : ℤ, 1 ≤ x → x ≤ 4 → 5 - (5 - x) = x := by
  refine ⟨?_, fun x _ _ => by ring⟩
  have hlen1 := correctAcq_length r ri
  have hlen2 := correctAcq_length (correctAcquiescence r ri) ri
  apply List.ext_getElem (by rw [hlen2, hlen1])
  intro i h1 h2
  have hi : i < r.length := h2
  have hi1 : i < (correctAcquiescence r ri).length := by rw [hlen1]; exact hi
  have g2 := correctAcq_getD (correctAcquiescence r ri) ri i hi1
  have g1 := correctAcq_getD r ri i hi
  rw [g1] at g2
  have key : (correctAcquiescence (correctAcquiescence r ri) ri).getD i 0 = r.getD i 0 := by
    rw [g2]
    split_ifs with hm
    · ring
    · rfl
  rw [List.getD_eq_getElem (correctAcquiescence (correctAcquiescence r ri) ri) 0 h1,
      List.getD_eq_getElem r 0 h2] at key
  exact key

/-- Witness for `c8_reverse_scoring_roundtrip` at a concrete input. -/
theorem c8_reverse_scoring_roundtrip_witness :
    (∀ i ∈ ([0, 2] : List ℕ), i < ([1, 2, 3, 4] : List ℤ).length) ∧
    correctAcquiescence (correctAcquiescence [1, 2, 3, 4] [0, 2]) [0, 2] = [1, 2, 3, 4] := by
  refine ⟨by decide, ?_⟩
  exact (c8_reverse_scoring_roundtrip [1, 2, 3, 4] [0, 2] (by decide)).1

/-! ### Helper lemmas: range preservation of the three corrections -/

/-- The extreme-responding correction maps a Likert vector into `[1, 4]`. -/
theorem correctExtreme_range (r : List ℤ) (hr : ∀ x ∈ r, 1 ≤ x ∧ x ≤ 4) :
    ∀ y ∈ correctExtreme r, 1 ≤ y ∧ y ≤ 4 := by
  simp only [correctExtreme]
  split_ifs with h
  · exact hr
  · intro y hy
    simp only [List.mem_map] at hy
    obtain ⟨a, _, rfl⟩ := hy
    exact rheR_range (le_max_left _ _) (max_le (by norm_num) (min_le_left _ _))

/-- The midpoint correction maps a Likert vector into `[1, 4]`. -/
theorem correctMidpoint_range (r : List ℤ) (hr : ∀ x ∈ r, 1 ≤ x ∧ x ≤ 4) :
    ∀ y ∈ correctMidpoint r, 1 ≤ y ∧ y ≤ 4 := by
  simp only [correctMidpoint]
  intro y hy
  simp only [List.mem_map] at hy
  obtain ⟨a, ha, rfl⟩ := hy
  by_cases h23 : a = 2 ∨ a = 3
  · rw [if_pos h23]
    exact rheQ_range (le_max_left _ _) (max_le (by norm_num) (min_le_left _ _))
  · rw [if_neg h23]
    exact hr a ha

/-- The acquiescence correction maps a Likert vector into `[1, 4]`. -/
theorem correctAcq_range (r : List ℤ) (ri : List ℕ) (hr : ∀ x ∈ r, 1 ≤ x ∧ x ≤ 4) :
    ∀ y ∈ correctAcquiescence r ri, 1 ≤ y ∧ y ≤ 4 := by
  intro y hy
  rw [List.mem_iff_getElem] at hy
  obtain ⟨i, h, hval⟩ := hy
  have hlen := correctAcq_length r ri
  have hi : i < r.length := by rw [← hlen]; exact h
  have hmemr : r.getD i 0 ∈ r := by
    rw [List.getD_eq_getElem r 0 hi]
    exact List.getElem_mem hi
  have hb := hr (r.getD i 0) hmemr
  have hgd := correctAcq_getD r ri i hi
  rw [List.getD_eq_getElem (correctAcquiescence r ri) 0 h] at hgd
  rw [← hval, hgd]
  split_ifs with hm
  · omega
  · omega

/-! ### Helper lemmas: statistics of constant vectors -/

/-- The mean of a constant vector is its value. -/
theorem meanZ_replicate (n : ℕ) (c : ℤ) (hn : n ≠ 0) :
    meanZ (List.replicate n c) = c := by
  unfold meanZ
  rw [List.sum_replicate, List.length_replicate, nsmul_eq_mul]
  have hn' : (n : ℚ) ≠ 0 := Nat.cast_ne_zero.mpr hn
  push_cast
  field_simp

/-- The population variance of a constant vector is zero. -/
theorem listVarZ_replicate (n : ℕ) (c : ℤ) : listVarZ (List.replicate n c) = 0 := by
  rcases Nat.eq_zero_or_pos n with h | h
  · subst h
    simp [listVarZ, meanZ]
  · unfold listVarZ
    rw [meanZ_replicate n c h.ne']
    have hmap : (List.replicate n c).map (fun (x : ℤ) => ((x : ℚ) - (c : ℚ)) ^ 2)
        = List.replicate n 0 := by
      rw [List.map_replicate]
      norm_num
    rw [hmap, List.sum_replicate]
    simp

/-! ### C9: corrected vectors stay on the Likert scale -/

/-- C9: on a Likert input vector, every element of the corrected vector
returned by `correct` is again in `[1, 4]`, for any optional reverse-item
list (the extreme and midpoint corrections round and clamp into `[1, 4]`,
and the acquiescence transform `5 - x` maps `[1, 4]` onto itself). -/
theorem c9_corrected_in_range (cfg : CorrectorConfig) (r : List ℤ)
    (ri : Option (List ℕ)) (hr : ∀ x ∈ r, 1 ≤ x ∧ x ≤ 4) :
    ∀ y ∈ (correct cfg r ri).corrected_responses, 1 ≤ y ∧ y ≤ 4 := by
  rcases ri with _ | l <;>
    simp only [correct] <;>
    split_ifs <;>
    first
      | exact hr
      | exact correctExtreme_range r hr
      | exact correctMidpoint_range _ hr
      | exact correctMidpoint_range _ (correctExtreme_range r hr)
      | exact correctAcq_range _ _ hr
      | exact correctAcq_range _ _ (correctExtreme_range r hr)
      | exact correctAcq_range _ _ (correctMidpoint_range _ hr)
      | exact correctAcq_range _ _ (correctMidpoint_range _ (correctExtreme_range r hr))

/-- Witness for `c9_corrected_in_range` at a concrete input. -/
theorem c9_corrected_in_range_witness :
    (∀ x ∈ ([1, 4, 1, 4] : List ℤ), 1 ≤ x ∧ x ≤ 4) ∧
    ∀ y ∈ (correct defaultCorrector [1, 4, 1, 4] (some [0])).corrected_responses,
      1 ≤ y ∧ y ≤ 4 :=
  ⟨by decide, c9_corrected_in_range defaultCorrector [1, 4, 1, 4] (some [0]) (by decide)⟩

/-! ### C10: a recorded correction need not change the vector -/

/-- C10: on 50 copies of the value 1 the extreme-responding score is 1
(above the default threshold), so `"extreme_responding"` is recorded, yet
the standard deviation is 0 (< 0.1) so the rescaling is skipped and the
corrected vector equals the original. -/
theorem c10_correction_recorded_but_vector_unchanged :
    (correct defaultCorrector (List.replicate 50 1) none).corrections_applied
        = ["extreme_responding"] ∧
    (correct defaultCorrector (List.replicate 50 1) none).corrected_responses
        = (correct defaultCorrector (List.replicate 50 1) none).original_responses := by
  have hers : calcExtremeResponding (List.replicate 50 (1 : ℤ)) = 1 := by
    unfold calcExtremeResponding
    rw [List.count_replicate_self, List.count_replicate, List.length_replicate]
    norm_num
  have hmrs : calcMidpointResponding (List.replicate 50 (1 : ℤ)) = 0 := by
    unfold calcMidpointResponding
    rw [List.count_replicate, List.count_replicate, List.length_replicate]
    norm_num
  have hext : correctExtreme (List.replicate 50 (1 : ℤ)) = List.replicate 50 1 := by
    simp only [correctExtreme]
    rw [listVarZ_replicate]
    norm_num
  simp only [correct]
  rw [hers, hmrs, hext]
  norm_num [defaultCorrector]

/-! ### C4: the careless flag counts fired heuristics -/

/-- C4: in every result of `analyze`, `is_careless` holds exactly when at
least two of the heuristic flags fired, independently of the numeric
quality score. -/
theorem c4_is_careless_iff (cfg : DetectorConfig) (r : List ℤ) (t : List ℚ)
    (maha : Option MahaDetails) :
    (analyze cfg r t maha).is_careless = true ↔
      2 ≤ (analyze cfg r t maha).flags.length := by
  simp only [analyze]
  exact decide_eq_true_iff

/-! ### C2: the quality score equals the documented penalty arithmetic -/

set_option maxHeartbeats 2000000 in
/-- The sequential penalty subtraction of `_calculate_quality_score` equals
the closed penalty formula of the specification. -/
theorem calcScore_eq_spec (cfg : DetectorConfig) (d : QualityDetails) :
    calculateQualityScore cfg d = specQualityScore cfg d := by
  obtain ⟨rt, ls, cons, maha, var⟩ := d
  obtain ⟨copt, e1, e2, e3, e4, cflag⟩ := cons
  have hcongr : ∀ A B : ℝ, A = B → max 0 (min 1 A) = max 0 (min 1 B) :=
    fun A B h => by rw [h]
  rcases maha with _ | m
  · rcases copt with _ | c <;>
      · simp only [calculateQualityScore, specQualityScore]
        apply hcongr
        split_ifs <;> ring
  · obtain ⟨pv, mf⟩ := m
    rcases pv with _ | p <;> rcases copt with _ | c <;>
      · simp only [calculateQualityScore, specQualityScore]
        apply hcongr
        split_ifs <;> ring

/-- C2: the quality score returned by `analyze` equals the literal penalty
arithmetic of the specification applied to the computed diagnostics, and is
always clamped into `[0, 1]`. -/
theorem c2_quality_score_formula (cfg : DetectorConfig) (r : List ℤ) (t : List ℚ)
    (maha : Option MahaDetails) :
    (analyze cfg r t maha).quality_score
        = specQualityScore cfg (analyze cfg r t maha).details ∧
    0 ≤ (analyze cfg r t maha).quality_score ∧
    (analyze cfg r t maha).quality_score ≤ 1 := by
  refine ⟨calcScore_eq_spec cfg _, ?_, ?_⟩
  · show (0 : ℝ) ≤ calculateQualityScore cfg _
    simp only [calculateQualityScore]
    exact le_max_left _ _
  · show calculateQualityScore cfg _ ≤ 1
    simp only [calculateQualityScore]
    exact max_le (by norm_num) (min_le_left _ _)

/-! ### C3: the recommendation bands -/

/-- C3: the recommendation of every `analyze` result is determined solely
by the quality score through the fixed cutoffs 0.8 / 0.6 / 0.4 (each
boundary mapping to the higher band), and is monotone in the score. -/
theorem c3_recommendation_cutoffs (cfg : DetectorConfig) (r : List ℤ) (t : List ℚ)
    (maha : Option MahaDetails) :
    (analyze cfg r t maha).recommendation
        = getRecommendation (analyze cfg r t maha).quality_score ∧
    (∀ q : ℝ,
      (4 / 5 ≤ q → getRecommendation q = .excellent) ∧
      (3 / 5 ≤ q → q < 4 / 5 → getRecommendation q = .acceptable) ∧
      (2 / 5 ≤ q → q < 3 / 5 → getRecommendation q = .warning) ∧
      (q < 2 / 5 → getRecommendation q = .reject)) ∧
    (∀ q1 q2 : ℝ, q1 ≤ q2 →
      recRank (getRecommendation q1) ≤ recRank (getRecommendation q2)) := by
  refine ⟨rfl, fun q => ⟨?_, ?_, ?_, ?_⟩, fun q1 q2 h => ?_⟩
  · intro h1
    unfold getRecommendation
    rw [if_pos h1]
  · intro h1 h2
    unfold getRecommendation
    rw [if_neg (by linarith), if_pos h1]
  · intro h1 h2
    unfold getRecommendation
    rw [if_neg (by linarith), if_neg (by linarith), if_pos h1]
  · intro h1
    unfold getRecommendation
    rw [if_neg (by linarith), if_neg (by linarith), if_neg (by linarith)]
  · unfold getRecommendation
    split_ifs <;> simp only [recRank] <;> first | omega | (exfalso; linarith)

/-- Witness for `c3_recommendation_cutoffs`: the boundary scores 0.8, 0.6,
0.4 map to the higher band, and 0.39 maps to reject. -/
theorem c3_recommendation_cutoffs_witness :
    getRecommendation ((4 : ℝ) / 5) = .excellent ∧
    getRecommendation ((3 : ℝ) / 5) = .acceptable ∧
    getRecommendation ((2 : ℝ) / 5) = .warning ∧
    getRecommendation ((39 : ℝ) / 100) = .reject :=
  ⟨((c3_recommendation_cutoffs defaultDetector [] [] none).2.1 (4 / 5)).1 (by norm_num),
   (((c3_recommendation_cutoffs defaultDetector [] [] none).2.1 (3 / 5)).2.1
      (by norm_num) (by norm_num)),
   ((((c3_recommendation_cutoffs defaultDetector [] [] none).2.1 (2 / 5)).2.2).1
      (by norm_num) (by norm_num)),
   ((((c3_recommendation_cutoffs defaultDetector [] [] none).2.1 (39 / 100)).2.2).2
      (by norm_num))⟩

/-! ### Helper lemmas: longstring scan -/

/-- `getD` on a constant vector. -/
theorem getD_replicate (n j : ℕ) (a : ℤ) (h : j < n) :
    (List.replicate n a).getD j 0 = a := by
  rw [List.getD_eq_getElem (List.replicate n a) 0 (by simpa using h)]
  simp

/-- A run in the left part of an append is a run of the whole. -/
theorem contigRun_append_left (A B : List ℤ) (k : ℕ) (v : ℤ)
    (h : ContigRun A k v) : ContigRun (A ++ B) k v := by
  obtain ⟨i, hik, hval⟩ := h
  refine ⟨i, by simp only [List.length_append]; omega, fun j hj => ?_⟩
  rw [List.getD_append A B 0 (i + j) (by omega)]
  exact hval j hj

/-- A run in the right part of an append is a run of the whole. -/
theorem contigRun_append_right (A B : List ℤ) (k : ℕ) (v : ℤ)
    (h : ContigRun B k v) : ContigRun (A ++ B) k v := by
  obtain ⟨i, hik, hval⟩ := h
  refine ⟨A.length + i, by simp only [List.length_append]; omega, fun j hj => ?_⟩
  rw [List.getD_append_right A B 0 (A.length + i + j) (by omega)]
  have harith : A.length + i + j - A.length = i + j := by omega
  rw [harith]
  exact hval j hj

/-- The value computed by `msFrom` is the length of an actual run of the
scanned vector. -/
theorem msFrom_exists (rest : List ℤ) :
    ∀ (prev : ℤ) (cur : ℕ),
      ∃ v, ContigRun (List.replicate cur prev ++ rest) (msFrom prev cur rest) v := by
  induction rest with
  | nil =>
      intro prev cur
      refine ⟨prev, 0, ?_, fun j hj => ?_⟩
      · simp [msFrom]
      · have hj' : j < cur := hj
        have harith : 0 + j = j := by omega
        rw [harith, List.getD_append _ _ 0 j (by simpa using hj')]
        exact getD_replicate cur j prev hj'
  | cons x rest ih =>
      intro prev cur
      by_cases h : x = prev
      · subst h
        have heq : List.replicate cur x ++ x :: rest = List.replicate (cur + 1) x ++ rest := by
          rw [List.replicate_succ', List.append_assoc]
          simp
        rw [show msFrom x cur (x :: rest) = msFrom x (cur + 1) rest from by
          simp [msFrom]]
        rw [heq]
        exact ih x (cur + 1)
      · rw [show msFrom prev cur (x :: rest) = max cur (msFrom x 1 rest) from by
          simp [msFrom, h]]
        rcases Nat.le_total cur (msFrom x 1 rest) with hle | hle
        · rw [max_eq_right hle]
          obtain ⟨v, hv⟩ := ih x 1
          have hone : List.replicate 1 x ++ rest = x :: rest := by simp
          rw [hone] at hv
          exact ⟨v, contigRun_append_right _ _ _ _ hv⟩
        · rw [max_eq_left hle]
          refine ⟨prev, 0, ?_, fun j hj => ?_⟩
          · simp only [List.length_append, List.length_replicate]
            omega
          · have harith : 0 + j = j := by omega
            rw [harith, List.getD_append _ _ 0 j (by simpa using hj)]
            exact getD_replicate cur j prev hj

/-- No run of the scanned vector is longer than the value computed by
`msFrom`. -/
theorem msFrom_ub (rest : List ℤ) :
    ∀ (prev : ℤ) (cur : ℕ), 1 ≤ cur → ∀ (k : ℕ) (v : ℤ),
      ContigRun (List.replicate cur prev ++ rest) k v → k ≤ msFrom prev cur rest := by
  induction rest with
  | nil =>
      intro prev cur _ k v h
      obtain ⟨i, hik, _⟩ := h
      simp only [List.append_nil, List.length_replicate] at hik
      simpa [msFrom] using le_trans (Nat.le_add_left k i) hik
  | cons x rest ih =>
      intro prev cur hcur k v h
      by_cases hx : x = prev
      · subst hx
        have heq : List.replicate cur x ++ x :: rest = List.replicate (cur + 1) x ++ rest := by
          rw [List.replicate_succ', List.append_assoc]
          simp
        rw [heq] at h
        have := ih x (cur + 1) (by omega) k v h
        simpa [msFrom] using this
      · rw [show msFrom prev cur (x :: rest) = max cur (msFrom x 1 rest) from by
          simp [msFrom, hx]]
        rcases Nat.eq_zero_or_pos k with hk | hk
        · omega
        · obtain ⟨i, hik, hval⟩ := h
          simp only [List.length_append, List.length_replicate, List.length_cons] at hik
          by_cases hiA : i + k ≤ cur
          · exact le_trans (le_trans (Nat.le_add_left k i) hiA) (le_max_left _ _)
          · by_cases hicur : cur ≤ i
            · have hB : ContigRun (x :: rest) k v := by
                refine ⟨i - cur, by simp only [List.length_cons]; omega, fun j hj => ?_⟩
                have hvj := hval j hj
                rw [List.getD_append_right _ _ 0 (i + j) (by simp; omega)] at hvj
                have harith : i + j - (List.replicate cur prev).length = i - cur + j := by
                  simp only [List.length_replicate]
                  omega
                rw [harith] at hvj
                exact hvj
              have hone : List.replicate 1 x ++ rest = x :: rest := by simp
              have hle := ih x 1 (by omega) k v (by rw [hone]; exact hB)
              exact le_trans hle (le_max_right _ _)
            · exfalso
              push_neg at hiA hicur
              have hv1 : v = prev := by
                have hj : cur - 1 - i < k := by omega
                have hvj := hval (cur - 1 - i) hj
                have harith : i + (cur - 1 - i) = cur - 1 := by omega
                rw [harith] at hvj
                rw [List.getD_append _ _ 0 (cur - 1) (by simp; omega)] at hvj
                rw [getD_replicate cur (cur - 1) prev (by omega)] at hvj
                exact hvj.symm
              have hv2 : v = x := by
                have hj : cur - i < k := by omega
                have hvj := hval (cur - i) hj
                have harith : i + (cur - i) = cur := by omega
                rw [harith] at hvj
                rw [List.getD_append_right _ _ 0 cur (by simp)] at hvj
                simpa using hvj.symm
              exact hx (hv2.symm.trans hv1)

/-- `msFrom` never shrinks the current run. -/
theorem msFrom_ge (rest : List ℤ) : ∀ (prev : ℤ) (cur : ℕ), cur ≤ msFrom prev cur rest := by
  induction rest with
  | nil => intro prev cur; simp [msFrom]
  | cons x rest ih =>
      intro prev cur
      simp only [msFrom]
      split_ifs
      · exact le_trans (Nat.le_succ cur) (ih x (cur + 1))
      · exact le_max_left _ _

/-- The accumulator scan of `_check_longstring` computes the same maximum
as `msFrom`, folded with the running maximum. -/
theorem lsAux_fst (rest : List ℤ) :
    ∀ (prev : ℤ) (i cur mx : ℕ) (acc : List Streak),
      (lsAux prev i cur mx acc rest).1 = max mx (msFrom prev cur rest) := by
  induction rest with
  | nil => intro prev i cur mx acc; simp [lsAux, msFrom]
  | cons x rest ih =>
      intro prev i cur mx acc
      simp only [lsAux, msFrom]
      split_ifs with h h5
      · exact ih x (i + 1) (cur + 1) mx acc
      · rw [ih]
        exact max_assoc mx cur (msFrom x 1 rest)
      · rw [ih]
        exact max_assoc mx cur (msFrom x 1 rest)

/-- `max_streak` of a nonempty vector equals the `msFrom` scan. -/
theorem checkLongstring_max (cfg : DetectorConfig) (x : ℤ) (rest : List ℤ) :
    (checkLongstring cfg (x :: rest)).max_streak = msFrom x 1 rest := by
  simp only [checkLongstring]
  rw [lsAux_fst]
  exact max_eq_right (msFrom_ge rest x 1)

/-- The longstring flag fires exactly when `max_streak` reaches the
threshold. -/
theorem checkLongstring_flag (cfg : DetectorConfig) (r : List ℤ) :
    (checkLongstring cfg r).is_flagged = true ↔
      cfg.longstring_threshold ≤ (checkLongstring cfg r).max_streak := by
  rcases r with _ | ⟨x, rest⟩ <;> simp only [checkLongstring] <;> exact decide_eq_true_iff

/-- The `msFrom` scan on a constant tail. -/
theorem msFrom_replicate (n : ℕ) :
    ∀ (c : ℤ) (cur : ℕ), msFrom c cur (List.replicate n c) = cur + n := by
  induction n with
  | zero => intro c cur; simp [msFrom]
  | succ m ih =>
      intro c cur
      rw [List.replicate_succ]
      have hstep : msFrom c cur (c :: List.replicate m c)
          = msFrom c (cur + 1) (List.replicate m c) := by
        simp [msFrom]
      rw [hstep, ih c (cur + 1)]
      omega

/-! ### C6: longstring detection -/

/-- C6: for every nonempty vector the reported `max_streak` is exactly the
length of the longest run of identical consecutive values (it is attained
by a run, and no run exceeds it — trailing runs included), and the flag
fires exactly when `max_streak` reaches `longstring_threshold`; moreover 50
identical values report `max_streak = 50` and fire the flag, while a
50-item vector whose longest run has length 9 (the default threshold minus
one) does not fire it. -/
theorem c6_longstring_runs :
    (∀ (cfg : DetectorConfig) (r : List ℤ), r ≠ [] →
      (∃ v, ContigRun r (checkLongstring cfg r).max_streak v) ∧
      (∀ (k : ℕ) (v : ℤ), ContigRun r k v → k ≤ (checkLongstring cfg r).max_streak) ∧
      ((checkLongstring cfg r).is_flagged = true ↔
        cfg.longstring_threshold ≤ (checkLongstring cfg r).max_streak)) ∧
    (∀ v : ℤ, (checkLongstring defaultDetector (List.replicate 50 v)).max_streak = 50 ∧
      (checkLongstring defaultDetector (List.replicate 50 v)).is_flagged = true) ∧
    ((checkLongstring defaultDetector runNineVec).max_streak = 9 ∧
      (checkLongstring defaultDetector runNineVec).is_flagged = false) := by
  refine ⟨?_, ?_, by decide, by decide⟩
  · intro cfg r hr
    rcases r with _ | ⟨x, rest⟩
    · exact absurd rfl hr
    · have hmax := checkLongstring_max cfg x rest
      have hone : List.replicate 1 x ++ rest = x :: rest := by simp
      refine ⟨?_, ?_, checkLongstring_flag cfg _⟩
      · rw [hmax, ← hone]
        exact msFrom_exists rest x 1
      · intro k v hk
        rw [hmax]
        apply msFrom_ub rest x 1 (le_refl 1) k v
        rw [hone]
        exact hk
  · intro v
    have h50 : (List.replicate 50 v) = v :: List.replicate 49 v := by
      rw [← List.replicate_succ]
    constructor
    · rw [h50, checkLongstring_max, msFrom_replicate]
    · rw [checkLongstring_flag, h50, checkLongstring_max, msFrom_replicate]
      norm_num [defaultDetector]

/-- Witness for `c6_longstring_runs` at a concrete nonempty vector with a
concrete run. -/
theorem c6_longstring_runs_witness :
    ([2, 2, 2, 1] : List ℤ) ≠ [] ∧
    3 ≤ (checkLongstring defaultDetector [2, 2, 2, 1]).max_streak := by
  refine ⟨by decide, ?_⟩
  exact (c6_longstring_runs.1 defaultDetector [2, 2, 2, 1] (by decide)).2.1 3 2
    ⟨0, by decide, by decide⟩

/-! ### Helper lemmas: Pearson correlation -/

/-- The population variance is nonnegative. -/
theorem listVarZ_nonneg (l : List ℤ) : 0 ≤ listVarZ l := by
  unfold listVarZ
  apply div_nonneg
  · apply List.sum_nonneg
    intro x hx
    simp only [List.mem_map] at hx
    obtain ⟨a, _, rfl⟩ := hx
    positivity
  · exact Nat.cast_nonneg _

/-- Comparing a quotient by a square root against a positive bound, without
computing the square root. -/
theorem div_sqrt_lt_iff (c t D : ℝ) (hD : 0 < D) (ht : 0 < t) :
    c / Real.sqrt D < t ↔ (c < 0 ∨ (0 ≤ c ∧ c ^ 2 < t ^ 2 * D)) := by
  have hs : 0 < Real.sqrt D := Real.sqrt_pos.mpr hD
  have hsq : Real.sqrt D ^ 2 = D := Real.sq_sqrt hD.le
  rw [div_lt_iff₀ hs]
  constructor
  · intro h
    by_cases hc : c < 0
    · exact Or.inl hc
    · push_neg at hc
      refine Or.inr ⟨hc, ?_⟩
      nlinarith [mul_pos ht hs]
  · intro h
    rcases h with hc | ⟨hc, h2⟩
    · exact lt_of_lt_of_le hc (le_of_lt (mul_pos ht hs))
    · nlinarith [mul_pos ht hs, sq_nonneg (c - t * Real.sqrt D), sq_nonneg (c + t * Real.sqrt D)]

/-! ### C7: even/odd consistency check -/

/-- C7: with fewer than 20 responses the consistency check reports
not-fired with the correlation diagnostic absent (and no exception — the
embedded check is a total function); with at least 20 responses the flag
fires exactly when the even/odd Pearson correlation (nan mapped to 0) falls
below the threshold, an inequality decided exactly by the rational
square-root-free test `consistencyFiredDecide`. -/
theorem c7_consistency (cfg : DetectorConfig) (r : List ℤ) :
    (r.length < 20 →
      (checkConsistency cfg r).is_flagged = false ∧
      (checkConsistency cfg r).correlation = none) ∧
    (0 < cfg.correlation_threshold →
      (checkConsistency cfg r).is_flagged = consistencyFiredDecide cfg r) ∧
    (20 ≤ r.length →
      ((checkConsistency cfg r).is_flagged = true ↔
        pearsonOrZero (evenTrunc r) (oddTrunc r) < (cfg.correlation_threshold : ℝ))) := by
  refine ⟨fun h => ?_, fun ht => ?_, fun h => ?_⟩
  · simp [checkConsistency, h]
  · by_cases hlen : r.length < 20
    · simp [checkConsistency, consistencyFiredDecide, hlen]
    · simp only [checkConsistency, consistencyFiredDecide, if_neg hlen]
      by_cases hv : listVarZ (evenTrunc r) = 0 ∨ listVarZ (oddTrunc r) = 0
      · rw [if_pos hv]
        rw [show pearsonOrZero (evenTrunc r) (oddTrunc r) = 0 from by
          simp only [pearsonOrZero]; rw [if_pos hv]]
        apply decide_eq_decide.mpr
        exact_mod_cast Iff.rfl
      · rw [if_neg hv]
        push_neg at hv
        have hvx : 0 < listVarZ (evenTrunc r) :=
          lt_of_le_of_ne (listVarZ_nonneg _) (Ne.symm hv.1)
        have hvy : 0 < listVarZ (oddTrunc r) :=
          lt_of_le_of_ne (listVarZ_nonneg _) (Ne.symm hv.2)
        rw [show pearsonOrZero (evenTrunc r) (oddTrunc r)
            = (listCovZ (evenTrunc r) (oddTrunc r) : ℝ) /
              Real.sqrt ((listVarZ (evenTrunc r) : ℝ) * (listVarZ (oddTrunc r) : ℝ)) from by
          simp only [pearsonOrZero]; rw [if_neg (by push_neg; exact ⟨hv.1, hv.2⟩)]]
        apply decide_eq_decide.mpr
        rw [div_sqrt_lt_iff _ _ _
          (mul_pos (by exact_mod_cast hvx) (by exact_mod_cast hvy))
          (by exact_mod_cast ht)]
        exact_mod_cast Iff.rfl
  · simp only [checkConsistency, if_neg (not_lt.mpr h)]
    exact decide_eq_true_iff

/-- Witness for `c7_consistency`: 20 constant responses have a zero-variance
even subsequence, the nan correlation is treated as 0 and the flag fires;
a short vector is not flagged. -/
theorem c7_consistency_witness :
    (0 : ℚ) < defaultDetector.correlation_threshold ∧
    (checkConsistency defaultDetector (List.replicate 20 2)).is_flagged = true ∧
    (([1, 2] : List ℤ).length < 20 ∧
      (checkConsistency defaultDetector [1, 2]).is_flagged = false) := by
  have ht : (0 : ℚ) < defaultDetector.correlation_threshold := by
    norm_num [defaultDetector]
  refine ⟨ht, ?_, by decide, ?_⟩
  · have he : evenTrunc (List.replicate 20 2) = List.replicate 10 2 := by decide
    have ho : oddTrunc (List.replicate 20 2) = List.replicate 10 2 := by decide
    have h := (c7_consistency defaultDetector (List.replicate 20 2)).2.1 ht
    rw [h]
    simp only [consistencyFiredDecide]
    rw [if_neg (by decide), he, ho, listVarZ_replicate]
    rw [if_pos (Or.inl rfl)]
    norm_num [defaultDetector]
  · exact ((c7_consistency defaultDetector [1, 2]).1 (by decide)).1

end TodayMe
